import Mathlib

/-!
Verification of the bluesky-kafka repository's natural-language specification
against a shallow embedding of its sources.

Embedded sources:
* `src/bluesky_kafka/kafka.py` — `Publisher`, `RemoteDispatcher` (`_poll`, `start`, `stop`).
* `src/bluesky_kafka/produce.py` — `BasicProducer` (`__init__`, `__str__`).

Components of the repository that the spec describes but whose files are not
under `src/` (the `Publisher`/`BlueskyConsumer` of `bluesky_kafka/__init__.py`
and the `BasicConsumer` of `bluesky_kafka/consume.py`, exercised by
`src/bluesky_kafka/tests/conftest.py` and `test_publisher.py`) are modelled
from the spec; each such definition carries a doc comment starting
`Modelled from the spec:`.

Python dictionaries over string keys are embedded as association lists with
insertion-order semantics (`dictSet` replaces in place, `dictUpdate` folds);
Python byte strings are embedded as `List Nat`; exceptions are embedded with
`Except String`.
-/

namespace BlueskyKafka

/-! ## Python dictionary model -/

/-- A Python `dict` with string keys and string values, embedded as an
association list in insertion order. -/
abbrev PyDict := List (String × String)

/-- Python `k in d`. -/
def containsKey : PyDict → String → Bool
  | [], _ => false
  | kv :: rest, k => kv.1 == k || containsKey rest k

/-- Python `d.get(k)`: the value at the first (for a genuine dict, only)
occurrence of key `k`. -/
def lookupD : PyDict → String → Option String
  | [], _ => none
  | kv :: rest, k => if kv.1 == k then some kv.2 else lookupD rest k

/-- Python `d[k] = v`: replace the value at an existing key in place,
otherwise append the new binding at the end (dict insertion order). -/
def dictSet (d : PyDict) (k v : String) : PyDict :=
  if containsKey d k then
    d.map (fun kv => if kv.1 == k then (kv.1, v) else kv)
  else
    d ++ [(k, v)]

/-- Python `d.update(other)`. -/
def dictUpdate (d other : PyDict) : PyDict :=
  other.foldl (fun acc kv => dictSet acc kv.1 kv.2) d

/-! ## Python string helpers -/

/-- Is `pat` a prefix of `s` (on character lists)? -/
def charsPrefix : List Char → List Char → Bool
  | [], _ => true
  | _ :: _, [] => false
  | p :: ps, c :: cs => p == c && charsPrefix ps cs

/-- Does `pat` occur as a contiguous substring of `s` (on character lists)? -/
def charsInfix (pat : List Char) : List Char → Bool
  | [] => charsPrefix pat []
  | c :: cs => charsPrefix pat (c :: cs) || charsInfix pat cs

/-- Python `pat in s` for strings: contiguous-substring test. -/
def strContains (s pat : String) : Bool :=
  charsInfix pat.data s.data

/-- Helper for `splitComma`: split a character list at commas, carrying the
current (reversed) chunk. -/
def splitCommaAux : List Char → List Char → List (List Char)
  | [], acc => [acc.reverse]
  | c :: cs, acc =>
    if c = ',' then acc.reverse :: splitCommaAux cs []
    else splitCommaAux cs (c :: acc)

/-- Python `s.split(",")`. -/
def splitComma (s : String) : List String :=
  (splitCommaAux s.data []).map String.mk

/-- Python `repr` of a list of strings, e.g. `['a', 'b']`. -/
def pyListRepr (l : List String) : String :=
  "[" ++ String.intercalate ", " (l.map (fun s => "\x27" ++ s ++ "\x27")) ++ "]"

/-- Python `str` of a string-valued dict, e.g. `{'k': 'v'}`. -/
def pyDictRepr (d : PyDict) : String :=
  "\x7b" ++
    String.intercalate ", "
      (d.map (fun kv => "\x27" ++ kv.1 ++ "\x27: \x27" ++ kv.2 ++ "\x27")) ++
    "\x7d"

/-! ## Codec

Modelled from the spec: the serializer/deserializer pair is an external
collaborator (`pickle.dumps`/`pickle.loads` are the defaults in
`src/bluesky_kafka/kafka.py`, `msgpack.dumps` in `src/bluesky_kafka/produce.py`;
neither library's source is part of this repository).  Spec §4.1 requires only
an `encode(document) -> bytes` / `decode(bytes) -> document` pair satisfying
the round-trip law, with `decode` failing on malformed input.  The executable
byte codec below realizes that contract over the representable document
domain (§3: null/bool/int/string scalars, lists, and string-keyed maps). -/

/-- A byte string: a list of byte values (each `< 256` by construction). -/
abbrev Bytes := List Nat

/-- Self-delimiting encoding of a natural number: a unary header of `1`-bytes
giving the count of base-256 digits, a `0` terminator, then the little-endian
digits. -/
def encNat (n : Nat) : Bytes :=
  let ds := Nat.digits 256 n
  List.replicate ds.length 1 ++ [0] ++ ds

/-- Consume the unary header: count leading `1`-bytes. -/
def takeOnes : Bytes → Nat × Bytes
  | 1 :: rest => let (k, r) := takeOnes rest; (k + 1, r)
  | bs => (0, bs)

/-- Decode a natural number encoded by `encNat`; returns the value and the
remaining bytes, or `none` on malformed input. -/
def decNat (bs : Bytes) : Option (Nat × Bytes) :=
  let (k, r) := takeOnes bs
  match r with
  | 0 :: r2 =>
    if k ≤ r2.length then some (Nat.ofDigits 256 (r2.take k), r2.drop k) else none
  | _ => none

/-- Encode a string: character count, then each character's code point. -/
def encStr (s : String) : Bytes :=
  encNat s.data.length ++ (s.data.map (fun c => encNat c.toNat)).flatten

/-- Decode `k` characters off the front of a byte string. -/
def decChars : Nat → Bytes → Option (List Char × Bytes)
  | 0, bs => some ([], bs)
  | k + 1, bs =>
    match decNat bs with
    | some (c, r) =>
      (decChars k r).map (fun p => (Char.ofNat c :: p.1, p.2))
    | none => none

/-- Decode a string encoded by `encStr`. -/
def decStr (bs : Bytes) : Option (String × Bytes) :=
  match decNat bs with
  | some (n, r) => (decChars n r).map (fun p => (String.mk p.1, p.2))
  | none => none

mutual
/-- A document representable by the serialization format (spec §3): a
structured value built from null, booleans, integers (sign and magnitude),
strings, lists, and string-keyed maps. -/
inductive Document where
  | null : Document
  | boolD (b : Bool) : Document
  | intD (neg : Bool) (n : Nat) : Document
  | strD (s : String) : Document
  | listD (items : DocList) : Document
  | dictD (entries : DocEntries) : Document
deriving DecidableEq
/-- A list of documents. -/
inductive DocList where
  | nil : DocList
  | cons (hd : Document) (tl : DocList) : DocList
deriving DecidableEq
/-- The entries of a string-keyed document map, in insertion order. -/
inductive DocEntries where
  | nil : DocEntries
  | cons (key : String) (val : Document) (tl : DocEntries) : DocEntries
deriving DecidableEq
end

mutual
/-- `encode(document) -> bytes`: tag byte, then the payload; lists and maps
are terminator-delimited. -/
def encodeDocument : Document → Bytes
  | .null => [0]
  | .boolD b => [1, if b then 1 else 0]
  | .intD neg n => [2, if neg then 1 else 0] ++ encNat n
  | .strD s => 3 :: encStr s
  | .listD items => 4 :: encDocList items
  | .dictD es => 5 :: encDocEntries es
/-- Encode the elements of a document list, closed by terminator byte `6`. -/
def encDocList : DocList → Bytes
  | .nil => [6]
  | .cons d tl => 7 :: (encodeDocument d ++ encDocList tl)
/-- Encode the entries of a document map, closed by terminator byte `6`. -/
def encDocEntries : DocEntries → Bytes
  | .nil => [6]
  | .cons k v tl => 7 :: (encStr k ++ encodeDocument v ++ encDocEntries tl)
end

mutual
/-- Fuel-indexed decoder for `encodeDocument`; `none` on malformed input or
exhausted fuel. -/
def decodeDocumentF : Nat → Bytes → Option (Document × Bytes)
  | 0, _ => none
  | _ + 1, 0 :: r => some (.null, r)
  | _ + 1, 1 :: 1 :: r => some (.boolD true, r)
  | _ + 1, 1 :: 0 :: r => some (.boolD false, r)
  | _ + 1, 2 :: sgn :: r =>
    if sgn ≤ 1 then (decNat r).map (fun p => (.intD (sgn == 1) p.1, p.2))
    else none
  | _ + 1, 3 :: r => (decStr r).map (fun p => (.strD p.1, p.2))
  | fuel + 1, 4 :: r => (decDocListF fuel r).map (fun p => (.listD p.1, p.2))
  | fuel + 1, 5 :: r => (decDocEntriesF fuel r).map (fun p => (.dictD p.1, p.2))
  | _ + 1, _ => none
/-- Fuel-indexed decoder for `encDocList`. -/
def decDocListF : Nat → Bytes → Option (DocList × Bytes)
  | 0, _ => none
  | _ + 1, 6 :: r => some (.nil, r)
  | fuel + 1, 7 :: r =>
    match decodeDocumentF fuel r with
    | some (d, r2) => (decDocListF fuel r2).map (fun p => (.cons d p.1, p.2))
    | none => none
  | _ + 1, _ => none
/-- Fuel-indexed decoder for `encDocEntries`. -/
def decDocEntriesF : Nat → Bytes → Option (DocEntries × Bytes)
  | 0, _ => none
  | _ + 1, 6 :: r => some (.nil, r)
  | fuel + 1, 7 :: r =>
    match decStr r with
    | some (k, r2) =>
      match decodeDocumentF fuel r2 with
      | some (v, r3) => (decDocEntriesF fuel r3).map (fun p => (.cons k v p.1, p.2))
      | none => none
    | none => none
  | _ + 1, _ => none
end

mutual
/-- Nesting size of a document, bounding the decoder fuel it needs. -/
def sizeDocument : Document → Nat
  | .listD items => 1 + sizeDocList items
  | .dictD es => 1 + sizeDocEntries es
  | _ => 1
/-- Nesting size of a document list. -/
def sizeDocList : DocList → Nat
  | .nil => 1
  | .cons d tl => 1 + sizeDocument d + sizeDocList tl
/-- Nesting size of document map entries. -/
def sizeDocEntries : DocEntries → Nat
  | .nil => 1
  | .cons _ v tl => 1 + sizeDocument v + sizeDocEntries tl
end

/-- `decode(bytes) -> document`: run the fuel-indexed decoder with fuel
`|bytes| + 1` (always sufficient for the output of `encodeDocument`) and
require the whole input to be consumed. -/
def decodeDocument (bs : Bytes) : Option Document :=
  match decodeDocumentF (bs.length + 1) bs with
  | some (d, []) => some d
  | _ => none

/-- The byte payload the `Publisher` produces for one document:
`self._serializer((name, doc))` serializes the `(name, document)` pair. -/
def serializeNameDoc (name : String) (d : Document) : Bytes :=
  encStr name ++ encodeDocument d

/-- The consumer-side `name, doc = self._deserializer(msg.value())`:
deserialize a byte payload into a `(name, document)` pair. -/
def deserializeNameDoc (bs : Bytes) : Option (String × Document) :=
  match decStr bs with
  | some (name, r) =>
    match decodeDocumentF (r.length + 1) r with
    | some (d, []) => some (name, d)
    | _ => none
  | none => none

/-! ## RemoteDispatcher (src/bluesky_kafka/kafka.py)

`RemoteDispatcher._poll` loops forever: `msg = self.consumer.poll(1.0)`;
`None` results are skipped; results with `msg.error()` non-null are logged;
otherwise `name, doc = self._deserializer(msg.value())` and
`self.process(DocumentNames[name], doc)`.  `start` guards on `self.closed`
(raising `RuntimeError`), runs `_poll`, and on any exception calls `stop()`
and re-raises.  `stop` closes the Kafka consumer and sets `closed = True`.

The loop is driven here by a finite script of poll results (the environment's
choices); exhausting the script without a fault means the real `while True`
loop is still running. -/

/-- One result of `self.consumer.poll(1.0)`: no message, a message carrying a
non-null `msg.error()`, or a valid message with its topic and byte value. -/
inductive PollResult where
  | noMessage : PollResult
  | errMsg (e : String) : PollResult
  | message (topic : String) (value : Bytes) : PollResult
deriving DecidableEq

/-- The dispatcher's `self._deserializer`: may raise (`Except.error`). -/
abbrev Deserializer := Bytes → Except String (String × Document)

/-- The dispatch step `self.process(DocumentNames[name], doc)`: covers both
the `DocumentNames[name]` lookup and the downstream subscriber callbacks,
either of which may raise. -/
abbrev Processor := String → Document → Except String Unit

/-- Observable actions of a `RemoteDispatcher` on its collaborators: calls of
`consumer.poll`, `logger.error`, the deserializer, `self.process`, and
`consumer.close`. -/
inductive KEvent where
  | subscribe : KEvent
  | poll : KEvent
  | logError (e : String) : KEvent
  | deserialize (value : Bytes) : KEvent
  | dispatch (name : String) (doc : Document) : KEvent
  | close : KEvent
deriving DecidableEq

/-- One iteration of the `while True` body of `RemoteDispatcher._poll`,
given the poll result: returns the control outcome (`ok` = fall through to
the next iteration, `error` = an exception escapes) and the events of the
iteration. -/
def pollStep (deser : Deserializer) (proc : Processor) :
    PollResult → Except String Unit × List KEvent
  | .noMessage => (.ok (), [.poll])
  | .errMsg e => (.ok (), [.poll, .logError e])
  | .message _ v =>
    match deser v with
    | .error f => (.error f, [.poll, .deserialize v])
    | .ok (name, doc) =>
      match proc name doc with
      | .error f => (.error f, [.poll, .deserialize v, .dispatch name doc])
      | .ok _ => (.ok (), [.poll, .deserialize v, .dispatch name doc])

/-- `RemoteDispatcher._poll` over a finite script of poll results: iterate
`pollStep` until a fault escapes or the script is exhausted (`ok` = the
infinite loop is still running). -/
def pollLoop (deser : Deserializer) (proc : Processor) :
    List PollResult → Except String Unit × List KEvent
  | [] => (.ok (), [])
  | r :: rest =>
    match pollStep deser proc r with
    | (.ok _, evs) =>
      let (out, evs2) := pollLoop deser proc rest
      (out, evs ++ evs2)
    | (.error f, evs) => (.error f, evs)

/-- The mutable state of a `RemoteDispatcher`: its `closed` flag and the
accumulated trace of collaborator events. -/
structure DispatcherState where
  closed : Bool
  events : List KEvent
deriving DecidableEq

/-- `RemoteDispatcher.__init__`: constructs the Kafka consumer, subscribes,
and sets `self.closed = False`. -/
def initialDispatcher : DispatcherState :=
  { closed := false, events := [.subscribe] }

/-- The observable result of a call to `RemoteDispatcher.start`. -/
inductive StartOutcome where
  | alreadyStopped : StartOutcome
  | raisedFault (f : String) : StartOutcome
  | polling : StartOutcome
deriving DecidableEq

/-- `RemoteDispatcher.start`: raise `RuntimeError` if `self.closed`;
otherwise run `_poll`, and on any exception call `stop()` (close the
consumer, set `closed = True`) and re-raise.  `polling` means the finite
script was exhausted and the `while True` loop is still running. -/
def startRun (deser : Deserializer) (proc : Processor) (s : DispatcherState)
    (script : List PollResult) : StartOutcome × DispatcherState :=
  if s.closed then (.alreadyStopped, s)
  else
    match pollLoop deser proc script with
    | (.ok _, evs) => (.polling, { closed := false, events := s.events ++ evs })
    | (.error f, evs) =>
      (.raisedFault f, { closed := true, events := s.events ++ evs ++ [.close] })

/-- `RemoteDispatcher.stop`: `self.consumer.close(); self.closed = True`. -/
def stopRun (s : DispatcherState) : DispatcherState :=
  { closed := true, events := s.events ++ [.close] }

/-- An external operation on a `RemoteDispatcher` instance: a `start` call
driven by a script of poll results, or a `stop` call. -/
inductive DispatcherOp where
  | opStart (script : List PollResult) : DispatcherOp
  | opStop : DispatcherOp
deriving DecidableEq

/-- Apply one operation to the dispatcher state. -/
def runOp (deser : Deserializer) (proc : Processor) (s : DispatcherState) :
    DispatcherOp → DispatcherState
  | .opStart script => (startRun deser proc s script).2
  | .opStop => stopRun s

/-- Apply a sequence of operations to the dispatcher state. -/
def runOps (deser : Deserializer) (proc : Processor)
    (s : DispatcherState) : List DispatcherOp → DispatcherState
  | [] => s
  | op :: ops => runOps deser proc (runOp deser proc s op) ops

/-- Number of `consumer.poll` calls in an event trace. -/
def pollCount : List KEvent → Nat
  | [] => 0
  | .poll :: rest => pollCount rest + 1
  | _ :: rest => pollCount rest

/-- Number of `consumer.close` calls in an event trace. -/
def closeCount : List KEvent → Nat
  | [] => 0
  | .close :: rest => closeCount rest + 1
  | _ :: rest => closeCount rest

/-- Number of deserializer invocations in an event trace. -/
def deserializeCount : List KEvent → Nat
  | [] => 0
  | .deserialize _ :: rest => deserializeCount rest + 1
  | _ :: rest => deserializeCount rest

/-! ## Continuation-predicate consumer loop (modelled from the spec)

The repository's predicate-bearing consumers — `BlueskyConsumer`
(`bluesky_kafka/__init__.py`) and `BasicConsumer` (`bluesky_kafka/consume.py`)
— are not under `src/`; only their callers are (`tests/conftest.py` invokes
`start(continue_polling=...)` / `start_polling(continue_polling=...)` and
supplies a `(consumer, topic, name, document)` handler).  The loop below is
modelled from spec §4.3: poll; classify the result as no-message /
broker-error / valid; decode valid messages; dispatch synchronously to the
user handler as `(self, topic, name, document)`; after a successful dispatch
only, evaluate the continuation predicate and exit the loop normally when it
returns false; decode and handler faults propagate after cleanup. -/

/-- Observable actions of the spec-modelled consumer loop.  `handlerCall`
records one synchronous dispatch with its full argument tuple
`(consumer, topic, name, document)`; the consumer instance itself is
identified by a numeric id. -/
inductive SpecEvent where
  | poll : SpecEvent
  | logError (e : String) : SpecEvent
  | handlerCall (consumer : Nat) (topic : String) (name : String)
      (doc : Document) : SpecEvent
  | evalPred (result : Bool) : SpecEvent
  | close : SpecEvent
deriving DecidableEq

/-- How a run of the spec-modelled loop ended. -/
inductive SpecOutcome where
  | alreadyStopped : SpecOutcome
  | stoppedNormally : SpecOutcome
  | raisedFault (f : String) : SpecOutcome
  | polling : SpecOutcome
deriving DecidableEq

/-- The user's document handler `(consumer, topic, name, document) -> void`,
which may raise; the consumer argument is implicit in the model (the loop
always passes its own id, recorded in the `handlerCall` event). -/
abbrev SpecHandler := String → String → Document → Except String Unit

/-- Modelled from the spec: the polling loop of `BlueskyConsumer` /
`BasicConsumer` (spec §4.3 step 2), over a finite script of poll results.
`c` counts dispatches performed so far; the continuation predicate is a
function of the number of completed dispatches (a caller closure observing
its own state, e.g. `until_first_stop_document` in conftest.py).  Returns
the outcome, the final dispatch count, and the events of the run.  An
exhausted script means the loop is still waiting for messages. -/
def specLoop (cid : Nat) (decode : Deserializer) (pred : Nat → Bool)
    (handler : SpecHandler) : Nat → List PollResult →
    SpecOutcome × Nat × List SpecEvent
  | c, [] => (.polling, c, [])
  | c, .noMessage :: rest =>
    let (o, c2, evs) := specLoop cid decode pred handler c rest
    (o, c2, .poll :: evs)
  | c, .errMsg e :: rest =>
    let (o, c2, evs) := specLoop cid decode pred handler c rest
    (o, c2, .poll :: .logError e :: evs)
  | c, .message t v :: rest =>
    match decode v with
    | .error f => (.raisedFault f, c, [.poll])
    | .ok (name, doc) =>
      match handler t name doc with
      | .error f => (.raisedFault f, c, [.poll, .handlerCall cid t name doc])
      | .ok _ =>
        if pred (c + 1) then
          let (o, c2, evs) := specLoop cid decode pred handler (c + 1) rest
          (o, c2, .poll :: .handlerCall cid t name doc :: .evalPred true :: evs)
        else
          (.stoppedNormally, c + 1,
            [.poll, .handlerCall cid t name doc, .evalPred false])

/-- The final state of one `start` call of the spec-modelled consumer. -/
structure SpecRun where
  outcome : SpecOutcome
  closed : Bool
  dispatched : Nat
  events : List SpecEvent
deriving DecidableEq

/-- Modelled from the spec: `start(continue_polling)` of `BlueskyConsumer` /
`BasicConsumer` (spec §4.3): fail fast when already stopped; run the loop; on
normal exit (predicate false) or on a fault, release the broker connection
(`close`), the fault being re-raised afterwards. -/
def specStart (cid : Nat) (decode : Deserializer) (pred : Nat → Bool)
    (handler : SpecHandler) (closed : Bool) (script : List PollResult) :
    SpecRun :=
  if closed then
    { outcome := .alreadyStopped, closed := closed, dispatched := 0, events := [] }
  else
    match specLoop cid decode pred handler 0 script with
    | (.stoppedNormally, c, evs) =>
      { outcome := .stoppedNormally, closed := true, dispatched := c,
        events := evs ++ [.close] }
    | (.raisedFault f, c, evs) =>
      { outcome := .raisedFault f, closed := true, dispatched := c,
        events := evs ++ [.close] }
    | (o, c, evs) =>
      { outcome := o, closed := false, dispatched := c, events := evs }

/-- Number of `.message` results in a poll script. -/
def msgCount : List PollResult → Nat
  | [] => 0
  | .message _ _ :: rest => msgCount rest + 1
  | _ :: rest => msgCount rest

/-- Every `.message` result in the script carries a decodable value. -/
def AllDecodable (decode : Deserializer) (script : List PollResult) : Prop :=
  ∀ t v, PollResult.message t v ∈ script → ∃ nd, decode v = .ok nd

/-- The handler never raises. -/
def HandlerOk (handler : SpecHandler) : Prop :=
  ∀ t n d, handler t n d = .ok ()

/-- Number of user-handler dispatches in a spec event trace. -/
def handlerCallCount : List SpecEvent → Nat
  | [] => 0
  | .handlerCall _ _ _ _ :: rest => handlerCallCount rest + 1
  | _ :: rest => handlerCallCount rest

/-- Number of continuation-predicate evaluations in a spec event trace. -/
def evalPredCount : List SpecEvent → Nat
  | [] => 0
  | .evalPred _ :: rest => evalPredCount rest + 1
  | _ :: rest => evalPredCount rest

/-- Number of `close` calls in a spec event trace. -/
def specCloseCount : List SpecEvent → Nat
  | [] => 0
  | .close :: rest => specCloseCount rest + 1
  | _ :: rest => specCloseCount rest

/-! ## BasicProducer (src/bluesky_kafka/produce.py) -/

/-- The `bootstrap_servers` argument of `BasicProducer.__init__`: either a
single string (rejected) or a sequence of strings. -/
inductive ServersArg where
  | strArg (s : String) : ServersArg
  | listArg (l : List String) : ServersArg
deriving DecidableEq

/-- The state a successful `BasicProducer.__init__` leaves behind (the
fields assigned by the constructor; `producerCreated` records that
`ConfluentProducer(self._producer_config)` was reached). -/
structure BasicProducerState where
  topic : String
  key : String
  bootstrap_servers : List String
  producer_config : PyDict
  producerCreated : Bool
deriving DecidableEq

/-- `self._producer_config = dict()` followed by
`self._producer_config.update(producer_config)` when one is given. -/
def initialProducerConfig (producer_config : Option PyDict) : PyDict :=
  match producer_config with
  | none => []
  | some pc => dictUpdate [] pc

/-- `BasicProducer.__init__`: copy `producer_config`; raise `TypeError` when
`bootstrap_servers` is a `str` (before the Kafka producer is constructed);
otherwise, when the config already holds `"bootstrap.servers"`, extend the
argument list with that value split on commas; finally store the
comma-joined list under `"bootstrap.servers"` and construct the producer. -/
def basicProducerInit (topic : String) (bootstrap_servers : ServersArg)
    (key : String) (producer_config : Option PyDict) :
    Except String BasicProducerState :=
  let cfg := initialProducerConfig producer_config
  match bootstrap_servers with
  | .strArg _ =>
    .error "TypeError: parameter bootstrap_servers must be a sequence of str, not str"
  | .listArg l =>
    let servers :=
      if containsKey cfg "bootstrap.servers" then
        l ++ splitComma ((lookupD cfg "bootstrap.servers").getD "")
      else l
    let cfg2 := dictSet cfg "bootstrap.servers" (String.intercalate "," servers)
    .ok { topic := topic, key := key, bootstrap_servers := servers,
          producer_config := cfg2, producerCreated := true }

/-- The servers contributed by a `"bootstrap.servers"` entry of the
`producer_config` argument (empty when absent). -/
def configExtraServers (producer_config : Option PyDict) : List String :=
  match lookupD (initialProducerConfig producer_config) "bootstrap.servers" with
  | some v => splitComma v
  | none => []

/-- `BasicProducer.__str__`'s `safe_config`: a copy of the producer config
with the value at `"sasl.password"` (when present) replaced by `"****"`. -/
def safeConfig (cfg : PyDict) : PyDict :=
  if containsKey cfg "sasl.password" then dictSet cfg "sasl.password" "****"
  else cfg

/-- `BasicProducer.__str__`: the f-string
`f"{type(self)}(topic='…',key='…',bootstrap_servers='…'producer_config='…')"`
rendered over the masked `safe_config`. -/
def basicProducerStr (topic key : String) (bootstrap_servers : List String)
    (cfg : PyDict) : String :=
  "<class \x27bluesky_kafka.produce.BasicProducer\x27>(" ++
    "topic=\x27" ++ topic ++ "\x27," ++
    "key=\x27" ++ key ++ "\x27," ++
    "bootstrap_servers=\x27" ++ pyListRepr bootstrap_servers ++ "\x27" ++
    "producer_config=\x27" ++ pyDictRepr (safeConfig cfg) ++ "\x27" ++
    ")"

/-! ## Publisher configuration (modelled from the spec)

The `Publisher` that `tests/test_publisher.py` constructs (with a string
`bootstrap_servers`, a `key` argument, and a `_producer_config` attribute) is
`bluesky_kafka.Publisher` from `bluesky_kafka/__init__.py`, which is not
under `src/`; the `Publisher` in `src/bluesky_kafka/kafka.py` takes no `key`
and lets `producer_config` override the constructor servers instead of
combining them. -/

/-- Modelled from the spec: the effective producer configuration built by
`Publisher.__init__` (`bluesky_kafka/__init__.py`).  Spec §8.6: a
`"bootstrap.servers"` entry of `producer_config` is combined with the
`bootstrap_servers` argument into a comma-concatenated list, constructor
argument first. -/
def publisherProducerConfig (bootstrap_servers : String)
    (producer_config : Option PyDict) : PyDict :=
  let cfg := initialProducerConfig producer_config
  match lookupD cfg "bootstrap.servers" with
  | some existing =>
    dictSet cfg "bootstrap.servers" (bootstrap_servers ++ "," ++ existing)
  | none => dictSet cfg "bootstrap.servers" bootstrap_servers

/-! ## Helper lemmas -/

/-- `closeCount` is additive over trace concatenation. -/
theorem closeCount_append (a b : List KEvent) :
    closeCount (a ++ b) = closeCount a + closeCount b := by
  induction a with
  | nil => simp [closeCount]
  | cons e rest ih => cases e <;> simp [closeCount, ih] <;> omega

/-- `pollCount` is additive over trace concatenation. -/
theorem pollCount_append (a b : List KEvent) :
    pollCount (a ++ b) = pollCount a + pollCount b := by
  induction a with
  | nil => simp [pollCount]
  | cons e rest ih => cases e <;> simp [pollCount, ih] <;> omega

/-- A single poll-loop iteration never closes the consumer. -/
theorem pollStep_closeCount (deser : Deserializer) (proc : Processor)
    (r : PollResult) : closeCount (pollStep deser proc r).2 = 0 := by
  cases r with
  | noMessage => rfl
  | errMsg e => rfl
  | message t v =>
    cases hd : deser v with
    | error f => simp [pollStep, hd, closeCount]
    | ok nd =>
      obtain ⟨name, doc⟩ := nd
      cases hp : proc name doc with
      | error f => simp [pollStep, hd, hp, closeCount]
      | ok u => simp [pollStep, hd, hp, closeCount]

/-- The poll loop itself never closes the consumer (only `stop` does). -/
theorem pollLoop_closeCount (deser : Deserializer) (proc : Processor)
    (script : List PollResult) :
    closeCount (pollLoop deser proc script).2 = 0 := by
  induction script with
  | nil => rfl
  | cons r rest ih =>
    have hstep := pollStep_closeCount deser proc r
    cases hs : pollStep deser proc r with
    | mk out evs =>
      rw [hs] at hstep
      cases out with
      | ok u =>
        cases hr : pollLoop deser proc rest with
        | mk o2 evs2 =>
          rw [hr] at ih
          simp only [pollLoop, hs, hr]
          rw [closeCount_append]
          simp only at hstep ih
          omega
      | error f => simpa [pollLoop, hs] using hstep

/-- Splitting a fault-free prefix off the poll loop. -/
theorem pollLoop_append (deser : Deserializer) (proc : Processor)
    (s1 s2 : List PollResult) (h : (pollLoop deser proc s1).1 = .ok ()) :
    pollLoop deser proc (s1 ++ s2) =
      ((pollLoop deser proc s2).1,
        (pollLoop deser proc s1).2 ++ (pollLoop deser proc s2).2) := by
  induction s1 with
  | nil => simp [pollLoop]
  | cons r rest ih =>
    cases hs : pollStep deser proc r with
    | mk out evs =>
      cases out with
      | ok u =>
        have h' : (pollLoop deser proc rest).1 = .ok () := by
          simp only [pollLoop, hs] at h
          exact h
        simp [pollLoop, hs, ih h', List.append_assoc]
      | error f =>
        exfalso
        simp only [pollLoop, hs] at h
        cases h

/-- `containsKey` agrees with `lookupD` returning a value. -/
theorem containsKey_eq_isSome_lookupD (d : PyDict) (k : String) :
    containsKey d k = (lookupD d k).isSome := by
  induction d with
  | nil => rfl
  | cons kv rest ih =>
    by_cases hk : kv.1 = k
    · simp [containsKey, lookupD, hk]
    · have hck : (kv.1 == k) = false := beq_eq_false_iff_ne.mpr hk
      simp [containsKey, lookupD, hck, ih]

/-- Lookup distributes over dict concatenation, first occurrence winning. -/
theorem lookupD_append (d1 d2 : PyDict) (k : String) :
    lookupD (d1 ++ d2) k = (lookupD d1 k).or (lookupD d2 k) := by
  induction d1 with
  | nil => simp [lookupD]
  | cons kv rest ih =>
    by_cases hk : kv.1 = k
    · simp [lookupD, hk]
    · have hck : (kv.1 == k) = false := beq_eq_false_iff_ne.mpr hk
      simp [lookupD, hck, ih]

/-- Replacing the values stored at key `k` does not affect lookups of a
different key `k'`. -/
theorem lookupD_map_replace (d : PyDict) (k v k' : String) (h : k' ≠ k) :
    lookupD (d.map (fun kv => if kv.1 == k then (kv.1, v) else kv)) k' =
      lookupD d k' := by
  induction d with
  | nil => rfl
  | cons kv rest ih =>
    simp only [beq_iff_eq] at ih
    by_cases hk : kv.1 = k
    · have hkk' : k ≠ k' := fun he => h he.symm
      simp [lookupD, hk, hkk', ih]
    · by_cases hk' : kv.1 = k'
      · simp [lookupD, hk, hk', h]
      · simp [lookupD, hk, hk', ih]

/-- Looking up the key just set in a config that already contained it. -/
theorem lookupD_dictSet_self (d : PyDict) (k v : String)
    (h : containsKey d k = true) : lookupD (dictSet d k v) k = some v := by
  unfold dictSet
  rw [h, if_pos rfl]
  induction d with
  | nil => simp [containsKey] at h
  | cons kv rest ih =>
    simp only [beq_iff_eq] at ih
    by_cases hk : kv.1 = k
    · simp [lookupD, hk]
    · have hrest : containsKey rest k = true := by
        simpa [containsKey, hk] using h
      simp [lookupD, hk, ih hrest]

/-- Setting one key leaves lookups of every other key unchanged. -/
theorem lookupD_dictSet_ne (d : PyDict) (k v k' : String) (h : k' ≠ k) :
    lookupD (dictSet d k v) k' = lookupD d k' := by
  unfold dictSet
  by_cases hc : containsKey d k
  · rw [if_pos hc]
    exact lookupD_map_replace d k v k' h
  · rw [if_neg hc, lookupD_append]
    have : lookupD [(k, v)] k' = none := by
      simp [lookupD, beq_eq_false_iff_ne.mpr (fun he => h he.symm)]
    rw [this]
    cases lookupD d k' <;> rfl

/-- A script consisting only of no-message and broker-error results never
makes the poll loop exit: it processes the whole script and keeps polling. -/
theorem pollLoop_benign_ok (deser : Deserializer) (proc : Processor) :
    ∀ script : List PollResult,
      (∀ r ∈ script, r = PollResult.noMessage ∨ ∃ e, r = PollResult.errMsg e) →
      (pollLoop deser proc script).1 = .ok () := by
  intro script
  induction script with
  | nil => intro _; rfl
  | cons r rs ih =>
    intro hb
    have hrs := ih (fun x hx => hb x (List.mem_cons_of_mem _ hx))
    cases hrest : pollLoop deser proc rs with
    | mk o evs =>
      rw [hrest] at hrs
      obtain hr | ⟨e, he⟩ := hb r (List.mem_cons_self r rs)
      · subst hr
        simp [pollLoop, pollStep, hrest, hrs]
      · subst he
        simp [pollLoop, pollStep, hrest, hrs]

/-- Any operation applied to an already-closed dispatcher keeps it closed
and issues no poll. -/
theorem runOp_closed (deser : Deserializer) (proc : Processor)
    (s : DispatcherState) (op : DispatcherOp) (h : s.closed = true) :
    (runOp deser proc s op).closed = true ∧
      pollCount (runOp deser proc s op).events = pollCount s.events := by
  cases op with
  | opStart script => simp [runOp, startRun, h]
  | opStop =>
    refine ⟨rfl, ?_⟩
    show pollCount (s.events ++ [.close]) = pollCount s.events
    rw [pollCount_append]
    rfl

/-- Any operation sequence applied to an already-closed dispatcher keeps it
closed and issues no poll. -/
theorem runOps_closed (deser : Deserializer) (proc : Processor)
    (ops : List DispatcherOp) :
    ∀ s : DispatcherState, s.closed = true →
      (runOps deser proc s ops).closed = true ∧
        pollCount (runOps deser proc s ops).events = pollCount s.events := by
  induction ops with
  | nil => intro s h; exact ⟨h, rfl⟩
  | cons op rest ih =>
    intro s h
    obtain ⟨hc, hp⟩ := runOp_closed deser proc s op h
    obtain ⟨hc2, hp2⟩ := ih (runOp deser proc s op) hc
    exact ⟨hc2, hp2.trans hp⟩

/-! ## Claim theorems -/

/-- C2: any fault raised inside the poll loop by the decode or dispatch step
(in particular a decode failure on a malformed payload) stops the loop:
results after the faulting one are never processed, `stop()` runs so that
`consumer.close()` is called exactly once and `closed` becomes true, and the
same fault is re-raised out of `start()`. -/
theorem c2_fault_cleanup_reraise (deser : Deserializer) (proc : Processor)
    (pre post : List PollResult) (r : PollResult) (f : String)
    (hpre : (pollLoop deser proc pre).1 = .ok ())
    (hr : (pollStep deser proc r).1 = .error f) :
    startRun deser proc initialDispatcher (pre ++ r :: post) =
      (.raisedFault f,
        { closed := true,
          events := .subscribe :: ((pollLoop deser proc pre).2 ++
            ((pollStep deser proc r).2 ++ [.close])) }) ∧
    closeCount
        (startRun deser proc initialDispatcher (pre ++ r :: post)).2.events = 1 := by
  cases hs : pollStep deser proc r with
  | mk o evs =>
    rw [hs] at hr
    cases o with
    | ok u => cases hr
    | error g =>
      cases hr
      have hloop2 : pollLoop deser proc (r :: post) = (.error f, evs) := by
        simp [pollLoop, hs]
      have hloop : pollLoop deser proc (pre ++ r :: post) =
          (.error f, (pollLoop deser proc pre).2 ++ evs) := by
        rw [pollLoop_append deser proc pre (r :: post) hpre, hloop2]
      have hfinal : startRun deser proc initialDispatcher (pre ++ r :: post) =
          (.raisedFault f,
            { closed := true,
              events := .subscribe :: ((pollLoop deser proc pre).2 ++
                (evs ++ [.close])) }) := by
        simp [startRun, initialDispatcher, hloop]
      refine ⟨hfinal, ?_⟩
      rw [hfinal]
      have h1 := pollLoop_closeCount deser proc pre
      have h2 := pollStep_closeCount deser proc r
      rw [hs] at h2
      simp only at h2
      show closeCount
          (.subscribe :: ((pollLoop deser proc pre).2 ++ (evs ++ [.close]))) = 1
      simp only [closeCount, closeCount_append]
      omega

/-- Witness for C2: a malformed payload whose decode fails after one benign
poll result; the fault surfaces from `start()` with a single `close`. -/
theorem c2_fault_cleanup_reraise_witness :
    (pollLoop (fun _ => .error "DecodeError") (fun _ _ => .ok ())
        [PollResult.noMessage]).1 = .ok () ∧
    (pollStep (fun _ => .error "DecodeError") (fun _ _ => .ok ())
        (.message "t" [9])).1 = .error "DecodeError" ∧
    closeCount
        (startRun (fun _ => .error "DecodeError") (fun _ _ => .ok ())
            initialDispatcher
            ([PollResult.noMessage] ++ .message "t" [9] :: [.noMessage])).2.events
      = 1 :=
  ⟨rfl, rfl,
    (c2_fault_cleanup_reraise (fun _ => .error "DecodeError") (fun _ _ => .ok ())
      [PollResult.noMessage] [.noMessage] (.message "t" [9]) "DecodeError"
      rfl rfl).2⟩

/-- C3: a poll result carrying a non-null broker error is logged and the
loop continues: its value is never passed to the deserializer, no dispatch
happens for it, and a loop fed any number of no-message/error results never
terminates. -/
theorem c3_broker_error_recovered (deser : Deserializer) (proc : Processor)
    (e : String) (rest script : List PollResult)
    (hbenign : ∀ r ∈ script,
      r = PollResult.noMessage ∨ ∃ e', r = PollResult.errMsg e') :
    pollStep deser proc (.errMsg e) = (.ok (), [.poll, .logError e]) ∧
    pollLoop deser proc (.errMsg e :: rest) =
      ((pollLoop deser proc rest).1,
        .poll :: .logError e :: (pollLoop deser proc rest).2) ∧
    (pollLoop deser proc script).1 = .ok () := by
  refine ⟨rfl, ?_, pollLoop_benign_ok deser proc script hbenign⟩
  cases hrest : pollLoop deser proc rest with
  | mk o evs => simp [pollLoop, pollStep, hrest]

/-- Witness for C3: one broker-error result among no-message results keeps
the loop running and is never deserialized. -/
theorem c3_broker_error_recovered_witness :
    (∀ r ∈ [PollResult.noMessage, PollResult.errMsg "Kafka Consumer error",
        PollResult.noMessage],
      r = PollResult.noMessage ∨ ∃ e', r = PollResult.errMsg e') ∧
    (pollLoop (fun _ => .error "DecodeError") (fun _ _ => .ok ())
        [PollResult.noMessage, PollResult.errMsg "Kafka Consumer error",
          PollResult.noMessage]).1 = .ok () := by
  have hb : ∀ r ∈ [PollResult.noMessage, PollResult.errMsg "Kafka Consumer error",
      PollResult.noMessage],
      r = PollResult.noMessage ∨ ∃ e', r = PollResult.errMsg e' := by
    intro r hm
    rcases List.mem_cons.mp hm with rfl | hm1
    · exact Or.inl rfl
    · rcases List.mem_cons.mp hm1 with rfl | hm2
      · exact Or.inr ⟨"Kafka Consumer error", rfl⟩
      · rcases List.mem_cons.mp hm2 with rfl | hm3
        · exact Or.inl rfl
        · exact absurd hm3 (List.not_mem_nil r)
  exact ⟨hb,
    (c3_broker_error_recovered (fun _ => .error "DecodeError")
      (fun _ _ => .ok ()) "x" []
      [PollResult.noMessage, PollResult.errMsg "Kafka Consumer error",
        PollResult.noMessage] hb).2.2⟩

/-- C4: for every consumer whose `closed` flag is true, `start()` fails
immediately with the lifecycle-misuse `RuntimeError` and leaves the state
untouched — in particular no poll call is issued to the broker adapter. -/
theorem c4_start_after_stop_raises (deser : Deserializer) (proc : Processor)
    (s : DispatcherState) (script : List PollResult) (h : s.closed = true) :
    startRun deser proc s script = (.alreadyStopped, s) ∧
      pollCount (startRun deser proc s script).2.events = pollCount s.events := by
  have : startRun deser proc s script = (.alreadyStopped, s) := by
    simp [startRun, h]
  exact ⟨this, by rw [this]⟩

/-- Witness for C4 at a concrete closed dispatcher. -/
theorem c4_start_after_stop_raises_witness :
    (DispatcherState.mk true [KEvent.subscribe, KEvent.close]).closed = true ∧
      startRun (fun _ => .error "DecodeError") (fun _ _ => .ok ())
          (DispatcherState.mk true [KEvent.subscribe, KEvent.close])
          [.noMessage, .message "t" [1]] =
        (.alreadyStopped, DispatcherState.mk true [KEvent.subscribe, KEvent.close]) :=
  ⟨rfl,
    (c4_start_after_stop_raises (fun _ => .error "DecodeError") (fun _ _ => .ok ())
      (DispatcherState.mk true [KEvent.subscribe, KEvent.close])
      [.noMessage, .message "t" [1]] rfl).1⟩

/-- C5: constructing a Publisher with `bootstrap_servers="1.2.3.4:9092"` and
`producer_config` containing `"bootstrap.servers": "5.6.7.8:9092"` yields an
effective `"bootstrap.servers"` value `"1.2.3.4:9092,5.6.7.8:9092"`,
constructor argument first. -/
theorem c5_bootstrap_servers_concatenation :
    lookupD
        (publisherProducerConfig "1.2.3.4:9092"
          (some [("bootstrap.servers", "5.6.7.8:9092")]))
        "bootstrap.servers" =
      some "1.2.3.4:9092,5.6.7.8:9092" := rfl

/-- C7: the `closed` flag is a one-shot state: false at construction, set to
true by `stop()` (also when `stop` runs on the fault path of `start`), and
once true it stays true under every subsequent operation, none of which
issues another poll on the broker adapter. -/
theorem c7_closed_one_shot (deser : Deserializer) (proc : Processor)
    (s : DispatcherState) (ops : List DispatcherOp) :
    initialDispatcher.closed = false ∧
    (stopRun s).closed = true ∧
    (s.closed = true →
      (runOps deser proc s ops).closed = true ∧
        pollCount (runOps deser proc s ops).events = pollCount s.events) :=
  ⟨rfl, rfl, fun h => runOps_closed deser proc ops s h⟩

/-- Witness for C7: from a closed dispatcher, a further stop and a further
start attempt leave it closed and add no poll events. -/
theorem c7_closed_one_shot_witness :
    (DispatcherState.mk true [KEvent.subscribe, KEvent.poll, KEvent.close]).closed
        = true ∧
    (runOps (fun _ => .error "DecodeError") (fun _ _ => .ok ())
          (DispatcherState.mk true [KEvent.subscribe, KEvent.poll, KEvent.close])
          [.opStop, .opStart [.noMessage, .message "t" [1]]]).closed = true ∧
    pollCount
        (runOps (fun _ => .error "DecodeError") (fun _ _ => .ok ())
          (DispatcherState.mk true [KEvent.subscribe, KEvent.poll, KEvent.close])
          [.opStop, .opStart [.noMessage, .message "t" [1]]]).events =
      pollCount [KEvent.subscribe, KEvent.poll, KEvent.close] := by
  have h := (c7_closed_one_shot (fun _ => .error "DecodeError") (fun _ _ => .ok ())
    (DispatcherState.mk true [KEvent.subscribe, KEvent.poll, KEvent.close])
    [.opStop, .opStart [.noMessage, .message "t" [1]]]).2.2 rfl
  exact ⟨rfl, h.1, h.2⟩

/-- C6 counterexample: the claim quantifies over every `sasl.*` credential
field, but `BasicProducer.__str__` masks only `"sasl.password"`: a
`"sasl.username"` credential value appears in plaintext in the rendering. -/
theorem c6_sasl_mask_counterexample :
    strContains
        (basicProducerStr "t" "k" ["1.2.3.4:9092"]
          [("sasl.username", "SECRETUSER")])
        "SECRETUSER" = true := by
  set_option maxRecDepth 40000 in decide

/-- C6 amended: only the `"sasl.password"` entry is redacted in the
human-readable rendering: its value is replaced by the fixed mask `"****"`
while the key name stays visible and every other configuration entry is
rendered unchanged; on the repository's own redaction test case the password
value is absent from the rendering while `"sasl.password"` and `"****"` are
present. -/
theorem c6_sasl_password_masked (cfg : PyDict) (k : String) :
    (containsKey cfg "sasl.password" = true →
      lookupD (safeConfig cfg) "sasl.password" = some "****") ∧
    (k ≠ "sasl.password" → lookupD (safeConfig cfg) k = lookupD cfg k) ∧
    strContains
        (basicProducerStr "test.redact.password" "k" ["1.2.3.4:9092"]
          [("sasl.password", "PASSWORD")])
        "PASSWORD" = false ∧
    strContains
        (basicProducerStr "test.redact.password" "k" ["1.2.3.4:9092"]
          [("sasl.password", "PASSWORD")])
        "sasl.password" = true ∧
    strContains
        (basicProducerStr "test.redact.password" "k" ["1.2.3.4:9092"]
          [("sasl.password", "PASSWORD")])
        "****" = true := by
  refine ⟨?_, ?_, ?_, ?_, ?_⟩
  · intro h
    unfold safeConfig
    rw [if_pos h]
    exact lookupD_dictSet_self cfg "sasl.password" "****" h
  · intro h
    unfold safeConfig
    by_cases hc : containsKey cfg "sasl.password"
    · rw [if_pos hc]
      exact lookupD_dictSet_ne cfg "sasl.password" "****" k h
    · rw [if_neg hc]
  · set_option maxRecDepth 40000 in decide
  · set_option maxRecDepth 40000 in decide
  · set_option maxRecDepth 40000 in decide

/-- Witness for C6 amended: the masking facts at the repository's redaction
test configuration. -/
theorem c6_sasl_password_masked_witness :
    containsKey [("sasl.password", "PASSWORD"), ("acks", "1")] "sasl.password"
        = true ∧
    lookupD (safeConfig [("sasl.password", "PASSWORD"), ("acks", "1")])
        "sasl.password" = some "****" ∧
    lookupD (safeConfig [("sasl.password", "PASSWORD"), ("acks", "1")]) "acks"
        = lookupD [("sasl.password", "PASSWORD"), ("acks", "1")] "acks" := by
  have h := c6_sasl_password_masked
    [("sasl.password", "PASSWORD"), ("acks", "1")] "acks"
  exact ⟨rfl, h.1 rfl, h.2.1 (by decide)⟩

/-- C10: `BasicProducer.__init__` raises `TypeError` on a `str`-typed
`bootstrap_servers` before the Kafka producer object is created, while every
sequence-of-strings argument is accepted and its entries are comma-joined
(together with any `"bootstrap.servers"` servers from `producer_config`) into
the effective `"bootstrap.servers"` value. -/
theorem c10_bootstrap_servers_type_check (topic key : String)
    (producer_config : Option PyDict) :
    (∀ s, basicProducerInit topic (.strArg s) key producer_config =
      .error "TypeError: parameter bootstrap_servers must be a sequence of str, not str") ∧
    (∀ l, basicProducerInit topic (.listArg l) key producer_config =
      .ok { topic := topic, key := key,
            bootstrap_servers := l ++ configExtraServers producer_config,
            producer_config :=
              dictSet (initialProducerConfig producer_config) "bootstrap.servers"
                (String.intercalate ","
                  (l ++ configExtraServers producer_config)),
            producerCreated := true }) := by
  refine ⟨fun s => rfl, fun l => ?_⟩
  simp only [basicProducerInit, containsKey_eq_isSome_lookupD]
  cases hc : lookupD (initialProducerConfig producer_config) "bootstrap.servers" with
  | none => simp [configExtraServers, hc]
  | some v => simp [configExtraServers, hc]

/-- `handlerCallCount` is additive over trace concatenation. -/
theorem handlerCallCount_append (a b : List SpecEvent) :
    handlerCallCount (a ++ b) = handlerCallCount a + handlerCallCount b := by
  induction a with
  | nil => simp [handlerCallCount]
  | cons e rest ih => cases e <;> simp [handlerCallCount, ih] <;> omega

/-- `evalPredCount` is additive over trace concatenation. -/
theorem evalPredCount_append (a b : List SpecEvent) :
    evalPredCount (a ++ b) = evalPredCount a + evalPredCount b := by
  induction a with
  | nil => simp [evalPredCount]
  | cons e rest ih => cases e <;> simp [evalPredCount, ih] <;> omega

/-- `specCloseCount` is additive over trace concatenation. -/
theorem specCloseCount_append (a b : List SpecEvent) :
    specCloseCount (a ++ b) = specCloseCount a + specCloseCount b := by
  induction a with
  | nil => simp [specCloseCount]
  | cons e rest ih => cases e <;> simp [specCloseCount, ih] <;> omega

/-- The spec-modelled loop body never emits a `close` (only `specStart`'s
exit paths do). -/
theorem specLoop_closeCount (cid : Nat) (decode : Deserializer)
    (pred : Nat → Bool) (handler : SpecHandler) :
    ∀ (script : List PollResult) (c : Nat),
      specCloseCount (specLoop cid decode pred handler c script).2.2 = 0 := by
  intro script
  induction script with
  | nil => intro c; rfl
  | cons r rest ih =>
    intro c
    cases r with
    | noMessage =>
      cases hl : specLoop cid decode pred handler c rest with
      | mk o p =>
        have := ih c
        rw [hl] at this
        simp [specLoop, hl, specCloseCount, this]
    | errMsg e =>
      cases hl : specLoop cid decode pred handler c rest with
      | mk o p =>
        have := ih c
        rw [hl] at this
        simp [specLoop, hl, specCloseCount, this]
    | message t v =>
      cases hd : decode v with
      | error f => simp [specLoop, hd, specCloseCount]
      | ok nd =>
        obtain ⟨n, d⟩ := nd
        cases hh : handler t n d with
        | error f => simp [specLoop, hd, hh, specCloseCount]
        | ok u =>
          cases hp : pred (c + 1) with
          | false => simp [specLoop, hd, hh, hp, specCloseCount]
          | true =>
            cases hl : specLoop cid decode pred handler (c + 1) rest with
            | mk o p =>
              have := ih (c + 1)
              rw [hl] at this
              simp [specLoop, hd, hh, hp, hl, specCloseCount, this]

/-- Main induction for C1: from `c` completed dispatches, a script whose
messages are all decodable and carry `K - c` further messages drives the
loop to exactly `K` dispatches and a normal exit, with one predicate
evaluation per dispatch. -/
theorem specLoop_dispatches_aux (cid : Nat) (decode : Deserializer)
    (pred : Nat → Bool) (handler : SpecHandler) (K : Nat)
    (hH : HandlerOk handler)
    (hpt : ∀ j, 1 ≤ j → j < K → pred j = true) (hpf : pred K = false) :
    ∀ (script : List PollResult) (c : Nat),
      AllDecodable decode script →
      c < K → c + msgCount script = K →
      (specLoop cid decode pred handler c script).1 = .stoppedNormally ∧
      (specLoop cid decode pred handler c script).2.1 = K ∧
      handlerCallCount (specLoop cid decode pred handler c script).2.2 = K - c ∧
      evalPredCount (specLoop cid decode pred handler c script).2.2 = K - c := by
  intro script
  induction script with
  | nil =>
    intro c _ hlt hsum
    simp [msgCount] at hsum
    omega
  | cons r rest ih =>
    intro c hdec hlt hsum
    have hdec' : AllDecodable decode rest := fun t v hm =>
      hdec t v (List.mem_cons_of_mem _ hm)
    cases r with
    | noMessage =>
      have hsum' : c + msgCount rest = K := by
        simpa [msgCount] using hsum
      obtain ⟨h1, h2, h3, h4⟩ := ih c hdec' hlt hsum'
      cases hl : specLoop cid decode pred handler c rest with
      | mk o p =>
        obtain ⟨c2, evs⟩ := p
        rw [hl] at h1 h2 h3 h4
        simp only at h1 h2 h3 h4
        subst h1
        subst h2
        refine ⟨?_, ?_, ?_, ?_⟩ <;>
          simp [specLoop, hl, handlerCallCount, evalPredCount, h3, h4]
    | errMsg e =>
      have hsum' : c + msgCount rest = K := by
        simpa [msgCount] using hsum
      obtain ⟨h1, h2, h3, h4⟩ := ih c hdec' hlt hsum'
      cases hl : specLoop cid decode pred handler c rest with
      | mk o p =>
        obtain ⟨c2, evs⟩ := p
        rw [hl] at h1 h2 h3 h4
        simp only at h1 h2 h3 h4
        subst h1
        subst h2
        refine ⟨?_, ?_, ?_, ?_⟩ <;>
          simp [specLoop, hl, handlerCallCount, evalPredCount, h3, h4]
    | message t v =>
      obtain ⟨nd, hnd⟩ := hdec t v (List.mem_cons_self _ _)
      obtain ⟨n, d⟩ := nd
      have hh : handler t n d = .ok () := hH t n d
      have hsum' : c + 1 + msgCount rest = K := by
        simp only [msgCount] at hsum
        omega
      by_cases hcK : c + 1 = K
      · have hp : pred (c + 1) = false := by rw [hcK]; exact hpf
        refine ⟨?_, ?_, ?_, ?_⟩ <;>
          simp [specLoop, hnd, hh, hp, handlerCallCount, evalPredCount] <;>
          omega
      · have hlt' : c + 1 < K := by omega
        have hp : pred (c + 1) = true := hpt (c + 1) (by omega) hlt'
        obtain ⟨h1, h2, h3, h4⟩ := ih (c + 1) hdec' hlt' hsum'
        cases hl : specLoop cid decode pred handler (c + 1) rest with
        | mk o p =>
          obtain ⟨c2, evs⟩ := p
          rw [hl] at h1 h2 h3 h4
          simp only at h1 h2 h3 h4
          subst h1
          subst h2
          refine ⟨?_, ?_, ?_, ?_⟩ <;>
            simp [specLoop, hnd, hh, hp, hl, handlerCallCount,
              evalPredCount, h3, h4] <;>
            omega

/-- C1: over a script holding exactly `K ≥ 1` valid decodable messages
interspersed with any no-message and broker-error results, with a handler
that never raises and a continuation predicate true before the `K`-th
dispatch and false after it, the spec-modelled consumer dispatches exactly
`K` times, evaluates the predicate exactly once per dispatch (so never on a
no-message or error result), and exits the loop normally into the stopped
state, closing the adapter once. -/
theorem c1_dispatch_count (cid : Nat) (decode : Deserializer)
    (pred : Nat → Bool) (handler : SpecHandler) (K : Nat)
    (script : List PollResult)
    (hH : HandlerOk handler) (hdec : AllDecodable decode script)
    (hK : msgCount script = K) (hKpos : 1 ≤ K)
    (hpt : ∀ j, 1 ≤ j → j < K → pred j = true) (hpf : pred K = false) :
    (specStart cid decode pred handler false script).outcome =
        .stoppedNormally ∧
    (specStart cid decode pred handler false script).closed = true ∧
    (specStart cid decode pred handler false script).dispatched = K ∧
    handlerCallCount (specStart cid decode pred handler false script).events
        = K ∧
    evalPredCount (specStart cid decode pred handler false script).events
        = K ∧
    specCloseCount (specStart cid decode pred handler false script).events
        = 1 := by
  obtain ⟨h1, h2, h3, h4⟩ := specLoop_dispatches_aux cid decode pred handler K
    hH hpt hpf script 0 hdec (by omega) (by omega)
  have hcl := specLoop_closeCount cid decode pred handler script 0
  cases hl : specLoop cid decode pred handler 0 script with
  | mk o p =>
    obtain ⟨c, evs⟩ := p
    rw [hl] at h1 h2 h3 h4 hcl
    simp only at h1 h2 h3 h4 hcl
    subst h1 h2
    simp [specStart, hl, handlerCallCount_append, evalPredCount_append,
      specCloseCount_append, h3, h4, hcl, handlerCallCount, evalPredCount,
      specCloseCount]

/-- Witness for C1: two decodable messages among benign results, with a
predicate that stops after the second dispatch. -/
theorem c1_dispatch_count_witness :
    HandlerOk (fun _ _ _ => (.ok () : Except String Unit)) ∧
    msgCount [PollResult.noMessage, PollResult.message "t" [1],
      PollResult.errMsg "broker error", PollResult.message "t" [2]] = 2 ∧
    (fun j => decide (j < 2)) 2 = false ∧
    (specStart 0 (fun _ => .ok ("event", .null)) (fun j => decide (j < 2))
        (fun _ _ _ => .ok ()) false
        [PollResult.noMessage, PollResult.message "t" [1],
          PollResult.errMsg "broker error", PollResult.message "t" [2]]).outcome
      = .stoppedNormally ∧
    (specStart 0 (fun _ => .ok ("event", .null)) (fun j => decide (j < 2))
        (fun _ _ _ => .ok ()) false
        [PollResult.noMessage, PollResult.message "t" [1],
          PollResult.errMsg "broker error",
          PollResult.message "t" [2]]).dispatched = 2 := by
  have h := c1_dispatch_count 0 (fun _ => .ok ("event", .null))
    (fun j => decide (j < 2)) (fun _ _ _ => .ok ()) 2
    [PollResult.noMessage, PollResult.message "t" [1],
      PollResult.errMsg "broker error", PollResult.message "t" [2]]
    (fun _ _ _ => rfl)
    (fun t v _ => ⟨("event", .null), rfl⟩)
    rfl (by omega)
    (fun j h1 h2 => by
      simp only [decide_eq_true_eq]
      omega)
    (by decide)
  exact ⟨fun _ _ _ => rfl, rfl, by decide, h.1, h.2.2.1⟩

/-- C8: a valid message whose value decodes to `(name, document)` is
dispatched synchronously on the polling thread: the very next action after
the poll in the same iteration is the user-handler call, carrying the
consumer itself, the message's topic, and the decoded name and document. -/
theorem c8_dispatch_arguments (cid : Nat) (decode : Deserializer)
    (pred : Nat → Bool) (handler : SpecHandler) (c : Nat) (t : String)
    (v : Bytes) (n : String) (d : Document) (rest : List PollResult)
    (hdec : decode v = .ok (n, d)) (hh : handler t n d = .ok ()) :
    (specLoop cid decode pred handler c (.message t v :: rest)).2.2.take 2 =
      [.poll, .handlerCall cid t n d] := by
  cases hp : pred (c + 1) with
  | true =>
    cases hl : specLoop cid decode pred handler (c + 1) rest with
    | mk o p => simp [specLoop, hdec, hh, hp, hl]
  | false => simp [specLoop, hdec, hh, hp]

/-- Witness for C8: a concrete decodable message produces the handler call
with all four arguments right after the poll. -/
theorem c8_dispatch_arguments_witness :
    (fun _ => (.ok ("start", Document.boolD true) :
        Except String (String × Document))) [7] = .ok ("start", .boolD true) ∧
    (specLoop 5 (fun _ => .ok ("start", .boolD true)) (fun _ => true)
        (fun _ _ _ => .ok ()) 0
        [.message "topic.a" [7], .noMessage]).2.2.take 2 =
      [.poll, .handlerCall 5 "topic.a" "start" (.boolD true)] :=
  ⟨rfl,
    c8_dispatch_arguments 5 (fun _ => .ok ("start", .boolD true))
      (fun _ => true) (fun _ _ _ => .ok ()) 0 "topic.a" [7] "start"
      (.boolD true) [.noMessage] rfl rfl⟩

/-- Consuming the unary header laid down by `encNat`. -/
theorem takeOnes_replicate (k : Nat) (t : Bytes) :
    takeOnes (List.replicate k 1 ++ (0 :: t)) = (k, 0 :: t) := by
  induction k with
  | zero => rfl
  | succ k ih => simp [List.replicate, takeOnes, ih]

/-- `decNat` inverts `encNat` on any byte stream continuation. -/
theorem decNat_encNat (n : Nat) (rest : Bytes) :
    decNat (encNat n ++ rest) = some (n, rest) := by
  have harr : encNat n ++ rest =
      List.replicate (Nat.digits 256 n).length 1 ++
        (0 :: (Nat.digits 256 n ++ rest)) := by
    simp [encNat]
  rw [harr]
  simp only [decNat, takeOnes_replicate]
  rw [if_pos (by simp)]
  simp [List.take_left, List.drop_left, Nat.ofDigits_digits]

/-- `decChars` inverts the concatenated character encodings. -/
theorem decChars_enc (cs : List Char) (rest : Bytes) :
    decChars cs.length ((cs.map (fun c => encNat c.toNat)).flatten ++ rest) =
      some (cs, rest) := by
  induction cs with
  | nil => simp [decChars]
  | cons c cs ih =>
    simp only [List.map, List.flatten, List.length_cons, List.append_assoc]
    simp [decChars, decNat_encNat, Char.ofNat_toNat, ih]

/-- `decStr` inverts `encStr` on any byte stream continuation. -/
theorem decStr_encStr (s : String) (rest : Bytes) :
    decStr (encStr s ++ rest) = some (s, rest) := by
  simp only [encStr, List.append_assoc]
  simp only [decStr, decNat_encNat]
  rw [decChars_enc s.data rest]
  rfl

/-- Every document has positive nesting size. -/
theorem sizeDocument_pos (d : Document) : 1 ≤ sizeDocument d := by
  cases d <;> simp [sizeDocument]

/-- Every document list has positive nesting size. -/
theorem sizeDocList_pos (l : DocList) : 1 ≤ sizeDocList l := by
  cases l <;> simp [sizeDocList] <;> omega

/-- Every document map has positive nesting size. -/
theorem sizeDocEntries_pos (es : DocEntries) : 1 ≤ sizeDocEntries es := by
  cases es <;> simp [sizeDocEntries] <;> omega

/-- With fuel at least the nesting size, the fuel-indexed decoders invert the
encoders on any byte stream continuation. -/
theorem decodeF_encode (fuel : Nat) :
    (∀ (d : Document) (rest : Bytes), sizeDocument d ≤ fuel →
      decodeDocumentF fuel (encodeDocument d ++ rest) = some (d, rest)) ∧
    (∀ (l : DocList) (rest : Bytes), sizeDocList l ≤ fuel →
      decDocListF fuel (encDocList l ++ rest) = some (l, rest)) ∧
    (∀ (es : DocEntries) (rest : Bytes), sizeDocEntries es ≤ fuel →
      decDocEntriesF fuel (encDocEntries es ++ rest) = some (es, rest)) := by
  induction fuel with
  | zero =>
    refine ⟨fun d rest h => ?_, fun l rest h => ?_, fun es rest h => ?_⟩
    · exact absurd h (by have := sizeDocument_pos d; omega)
    · exact absurd h (by have := sizeDocList_pos l; omega)
    · exact absurd h (by have := sizeDocEntries_pos es; omega)
  | succ f ih =>
    obtain ⟨ihd, ihl, ihe⟩ := ih
    refine ⟨fun d rest hsize => ?_, fun l rest hsize => ?_,
      fun es rest hsize => ?_⟩
    · cases d with
      | null => simp [encodeDocument, decodeDocumentF]
      | boolD b => cases b <;> simp [encodeDocument, decodeDocumentF]
      | intD neg n =>
        cases neg <;>
          simp [encodeDocument, decodeDocumentF, decNat_encNat]
      | strD s => simp [encodeDocument, decodeDocumentF, decStr_encStr]
      | listD items =>
        have h1 : sizeDocList items ≤ f := by
          simp only [sizeDocument] at hsize
          omega
        simp [encodeDocument, decodeDocumentF, ihl items rest h1]
      | dictD es =>
        have h1 : sizeDocEntries es ≤ f := by
          simp only [sizeDocument] at hsize
          omega
        simp [encodeDocument, decodeDocumentF, ihe es rest h1]
    · cases l with
      | nil => simp [encDocList, decDocListF]
      | cons d tl =>
        have h1 : sizeDocument d ≤ f := by
          have := sizeDocList_pos tl
          simp only [sizeDocList] at hsize
          omega
        have h2 : sizeDocList tl ≤ f := by
          have := sizeDocument_pos d
          simp only [sizeDocList] at hsize
          omega
        simp only [encDocList, List.cons_append, List.append_assoc]
        simp [decDocListF, ihd d (encDocList tl ++ rest) h1, ihl tl rest h2]
    · cases es with
      | nil => simp [encDocEntries, decDocEntriesF]
      | cons k v tl =>
        have h1 : sizeDocument v ≤ f := by
          have := sizeDocEntries_pos tl
          simp only [sizeDocEntries] at hsize
          omega
        have h2 : sizeDocEntries tl ≤ f := by
          have := sizeDocument_pos v
          simp only [sizeDocEntries] at hsize
          omega
        simp only [encDocEntries, List.cons_append, List.append_assoc]
        simp [decDocEntriesF, decStr_encStr,
          ihd v (encDocEntries tl ++ rest) h1, ihe tl rest h2]

/-- The nesting size of a document is bounded by its encoded length (each
nesting level emits at least its tag byte). -/
theorem size_le_encLength (n : Nat) :
    (∀ d : Document, sizeDocument d ≤ n →
      sizeDocument d ≤ (encodeDocument d).length) ∧
    (∀ l : DocList, sizeDocList l ≤ n →
      sizeDocList l ≤ (encDocList l).length) ∧
    (∀ es : DocEntries, sizeDocEntries es ≤ n →
      sizeDocEntries es ≤ (encDocEntries es).length) := by
  induction n with
  | zero =>
    refine ⟨fun d h => ?_, fun l h => ?_, fun es h => ?_⟩
    · exact absurd h (by have := sizeDocument_pos d; omega)
    · exact absurd h (by have := sizeDocList_pos l; omega)
    · exact absurd h (by have := sizeDocEntries_pos es; omega)
  | succ n ih =>
    obtain ⟨ihd, ihl, ihe⟩ := ih
    refine ⟨fun d hsize => ?_, fun l hsize => ?_, fun es hsize => ?_⟩
    · cases d with
      | listD items =>
        have h1 : sizeDocList items ≤ n := by
          simp only [sizeDocument] at hsize
          omega
        have := ihl items h1
        simp only [sizeDocument, encodeDocument, List.length_cons]
        omega
      | dictD es =>
        have h1 : sizeDocEntries es ≤ n := by
          simp only [sizeDocument] at hsize
          omega
        have := ihe es h1
        simp only [sizeDocument, encodeDocument, List.length_cons]
        omega
      | null => simp [sizeDocument, encodeDocument]
      | boolD b => simp [sizeDocument, encodeDocument]
      | intD neg m => simp [sizeDocument, encodeDocument]
      | strD s => simp [sizeDocument, encodeDocument]
    · cases l with
      | nil => simp [sizeDocList, encDocList]
      | cons d tl =>
        have hd : sizeDocument d ≤ n := by
          have := sizeDocList_pos tl
          simp only [sizeDocList] at hsize
          omega
        have htl : sizeDocList tl ≤ n := by
          have := sizeDocument_pos d
          simp only [sizeDocList] at hsize
          omega
        have e1 := ihd d hd
        have e2 := ihl tl htl
        simp only [sizeDocList, encDocList, List.length_cons,
          List.length_append]
        omega
    · cases es with
      | nil => simp [sizeDocEntries, encDocEntries]
      | cons k v tl =>
        have hv : sizeDocument v ≤ n := by
          have := sizeDocEntries_pos tl
          simp only [sizeDocEntries] at hsize
          omega
        have htl : sizeDocEntries tl ≤ n := by
          have := sizeDocument_pos v
          simp only [sizeDocEntries] at hsize
          omega
        have e1 := ihd v hv
        have e2 := ihe tl htl
        simp only [sizeDocEntries, encDocEntries, List.length_cons,
          List.length_append]
        omega

/-- C9: the round-trip law `decode(encode(d)) == d` holds for every document
representable by the serialization format, both for a bare document and for
the `(name, document)` pair payload the Publisher serializes and the
consumer deserializes. -/
theorem c9_codec_round_trip :
    (∀ d : Document, decodeDocument (encodeDocument d) = some d) ∧
    (∀ (name : String) (d : Document),
      deserializeNameDoc (serializeNameDoc name d) = some (name, d)) := by
  have hrt : ∀ (d : Document) (rest : Bytes) (fuel : Nat),
      sizeDocument d ≤ fuel →
      decodeDocumentF fuel (encodeDocument d ++ rest) = some (d, rest) :=
    fun d rest fuel h => (decodeF_encode fuel).1 d rest h
  have hsz : ∀ d : Document,
      sizeDocument d ≤ (encodeDocument d).length + 1 := by
    intro d
    have := (size_le_encLength (sizeDocument d)).1 d (Nat.le_refl _)
    omega
  constructor
  · intro d
    have h := hrt d [] ((encodeDocument d).length + 1) (hsz d)
    rw [List.append_nil] at h
    simp [decodeDocument, h]
  · intro name d
    have h := hrt d [] ((encodeDocument d).length + 1) (hsz d)
    rw [List.append_nil] at h
    simp [deserializeNameDoc, serializeNameDoc, decStr_encStr, h]

end BlueskyKafka
